import Mathlib

/-!
Shallow embedding of the PQC benchmark suite (USTCTI/PQC).

The embedding covers the parts of the code base that the verified
properties are about:

* `src/runner.py` — `BenchmarkRunner._calculate_stats` (the stats
  aggregator), `BenchmarkRunner.run_micro_benchmarks` (the KEM
  micro-benchmark phase) and `BenchmarkRunner.run` (top-level
  orchestration with its exception handling and `finally` block);
* `src/algorithms.py` — `CryptoAlgorithm._load_module`,
  `PQCRYPTO_MAPPING` and `Signature.verify`;
* `src/monitor.py` — the body of `SystemMonitor._monitor_loop`.

Python numbers are embedded as `ℚ` (timings) and `ℤ`/`ℕ` (nanosecond
counts, byte values); a Python call that may raise is embedded as an
`Except` value whose error carries the exception class that matters for
the control flow being modelled.  External effects (the provider
library, `psutil`) are parameters of the corresponding functions, so a
theorem quantifying over them covers every behaviour of the
collaborator.
-/

/-! ## Stats aggregator (`BenchmarkRunner._calculate_stats`) -/

/-- Embeds `latencies = [l / 1000.0 for l in latencies_ns]` — nanoseconds
to microseconds (runner.py line 121). -/
def nsToUs (latenciesNs : List ℤ) : List ℚ :=
  latenciesNs.map (fun l : ℤ => (l : ℚ) / 1000)

/-- Python `min` over a non-empty list (a left fold); the `[]` case is
never reached by `_calculate_stats` (guarded by the empty-sample check). -/
def listMin : List ℚ → ℚ
  | [] => 0
  | x :: xs => xs.foldl min x

/-- Python `max` over a non-empty list (a left fold). -/
def listMax : List ℚ → ℚ
  | [] => 0
  | x :: xs => xs.foldl max x

/-- Insert an element into a sorted list (auxiliary for `pySorted`). -/
def insortAux (x : ℚ) : List ℚ → List ℚ
  | [] => [x]
  | y :: ys => if x ≤ y then x :: y :: ys else y :: insortAux x ys

/-- Python `sorted(data)`: on rational values any comparison sort
computes the same list (the unique sorted arrangement of the multiset),
embedded here as insertion sort so that it is structurally recursive. -/
def pySorted : List ℚ → List ℚ
  | [] => []
  | x :: xs => insortAux x (pySorted xs)

/-- Python `statistics.mean(data)` = sum / count. -/
def pyMean (l : List ℚ) : ℚ := l.sum / (l.length : ℚ)

/-- Python `statistics.median(data)`: sort; for odd length the middle
element, for even length the average of the two middle elements. -/
def pyMedian (l : List ℚ) : ℚ :=
  let s := pySorted l
  let n := s.length
  if n % 2 = 1 then s.getD (n / 2) 0
  else (s.getD (n / 2 - 1) 0 + s.getD (n / 2) 0) / 2

/-- Numpy `np.percentile(a, q)` with the default linear interpolation: the
virtual index is `h = q/100 * (n-1)`, and the result interpolates
between the order statistics at `floor h` and `ceil h` (exact
counterparts of numpy's floating-point floor and ceil on the index,
which is exactly represented here). -/
def npPercentile (xs : List ℚ) (q : ℚ) : ℚ :=
  let s := pySorted xs
  let n := s.length
  let h : ℚ := q / 100 * ((n : ℚ) - 1)
  let i : ℕ := ⌊h⌋.toNat
  let j : ℕ := ⌈h⌉.toNat
  s.getD i 0 + (h - (i : ℚ)) * (s.getD j 0 - s.getD i 0)

/-- The sample variance `Σ (x - mean)² / (n - 1)` — the square of
`statistics.stdev(data)`.  `_calculate_stats` only evaluates it for
`n > 1`. -/
def sampleVariance (l : List ℚ) : ℚ :=
  ((l.map (fun x => (x - pyMean l) ^ 2)).sum) / ((l.length : ℚ) - 1)

/-- The summary dict built by `_calculate_stats` (runner.py 119-130).
The code stores `std_dev_us = sqrt(variance)`; since the square root of
a rational is irrational in general, the summary here carries the exact
radicand `std_dev_sq_us` (with the same `n > 1` guard as the code), and
the standard deviation is written `Real.sqrt s.std_dev_sq_us` in the
statements about it. -/
structure StatSummary where
  avg_us : ℚ
  median_us : ℚ
  p99_us : ℚ
  min_us : ℚ
  max_us : ℚ
  std_dev_sq_us : ℚ
  throughput_ops_sec : ℚ
deriving DecidableEq, Repr

/-- The failure of `_calculate_stats` on an empty sample list: Python's
`statistics.mean([])` raises `StatisticsError` (the spec's
`EmptySampleSet`) before any other field is computed. -/
inductive StatsError
  | emptySampleSet
deriving DecidableEq, Repr

/-- The field values of `_calculate_stats` on a (non-empty) sample
list, following runner.py 119-130 line by line. -/
def statsOf (latenciesNs : List ℤ) : StatSummary :=
  let latencies := nsToUs latenciesNs
  { avg_us := pyMean latencies
    median_us := pyMedian latencies
    p99_us := npPercentile latencies 99
    min_us := listMin latencies
    max_us := listMax latencies
    std_dev_sq_us := if 1 < latencies.length then sampleVariance latencies else 0
    throughput_ops_sec :=
      if 0 < pyMean latencies then 1000000 / pyMean latencies else 0 }

/-- Embeds `BenchmarkRunner._calculate_stats` — raises (the spec's
`EmptySampleSet`) exactly when the sample list is empty, otherwise
returns the summary. -/
def calculateStats (latenciesNs : List ℤ) : Except StatsError StatSummary :=
  match latenciesNs with
  | [] => .error .emptySampleSet
  | _ :: _ => .ok (statsOf latenciesNs)

/-! ## Algorithm adapter (`src/algorithms.py`) -/

/-- The table `PQCRYPTO_MAPPING` (algorithms.py 13-27). -/
def PQCRYPTO_MAPPING : List (String × String) :=
  [("ML-KEM-512", "pqcrypto.kem.ml_kem_512"),
   ("ML-KEM-768", "pqcrypto.kem.ml_kem_768"),
   ("Kyber512", "pqcrypto.kem.kyber512"),
   ("Kyber768", "pqcrypto.kem.kyber768"),
   ("ML-DSA-44", "pqcrypto.sign.ml_dsa_44"),
   ("ML-DSA-65", "pqcrypto.sign.ml_dsa_65"),
   ("Dilithium2", "pqcrypto.sign.dilithium2"),
   ("Dilithium3", "pqcrypto.sign.dilithium3"),
   ("Falcon-512", "pqcrypto.sign.falcon_512"),
   ("SPHINCS+-128s-simple", "pqcrypto.sign.sphincs_shake_128s_simple")]

/-- The exceptions `CryptoAlgorithm._load_module` can raise:
`ImportError` (re-raised from `importlib.import_module`, carrying the
module path that failed), `NotImplementedError` (dilithium-py stub) and
`ValueError` (unknown implementation tag). -/
inductive LoadError
  | importError (moduleName : String)
  | notImplementedError
  | valueError (implementation : String)
deriving DecidableEq, Repr

/-- Python's substring test `needle in hay`. -/
def strContains (hay needle : String) : Bool :=
  decide (List.IsInfix needle.toList hay.toList)

/-- Embeds `CryptoAlgorithm._load_module` (algorithms.py 35-50).  `available`
models which Python modules `importlib.import_module` can import; the
result is the imported module's name, or `none` for the code path that
falls through to `return None`. -/
def loadModule (name implementation : String) (available : String → Bool) :
    Except LoadError (Option String) :=
  if implementation = "pqcrypto" then
    let moduleName := (PQCRYPTO_MAPPING.lookup name).getD name
    if available moduleName then .ok (some moduleName)
    else .error (.importError moduleName)
  else if implementation = "dilithium-py" then
    if strContains name "ML-DSA" || strContains name "Dilithium" then
      .error .notImplementedError
    else .ok none
  else .error (.valueError implementation)

/-- Opaque byte strings exchanged with the provider. -/
abbrev Bytes := List ℕ

/-- The surface of a loaded provider module as used by
`Signature.verify`: an optional `verify` attribute and an optional
`open` attribute (`hasattr` checks), each a call that either returns or
raises an `Exception`-class error (`Except Unit`).  A module value of
`⟨none, none⟩` also covers `self.module is None`. -/
structure SigModule where
  verifyFn : Option (Bytes → Bytes → Bytes → Except Unit Bool)
  openFn : Option (Bytes → Bytes → Except Unit Bytes)

/-- Embeds `Signature.verify` (algorithms.py 92-125): inside `try`, dispatch on
`hasattr(module, 'verify')` then `hasattr(module, 'open')`;
`except Exception: return False`; fall through to `return False`. -/
def Signature.verify (m : SigModule) (publicKey message signature : Bytes) :
    Except Unit Bool :=
  match m.verifyFn with
  | some f =>
    match f publicKey message signature with
    | .ok b => .ok b
    | .error _ => .ok false
  | none =>
    match m.openFn with
    | some op =>
      match op publicKey signature with
      | .ok res => .ok (decide (res = message))
      | .error _ => .ok false
    | none => .ok false

/-! ## Resource monitor (`SystemMonitor._monitor_loop`, monitor.py 36-72) -/

/-- The exception classes that matter to the loop's control flow:
`psutil.NoSuchProcess` versus any other `Exception`-class failure. -/
inductive MonitorExc
  | noSuchProcess
  | otherFailure
deriving DecidableEq, Repr

/-- One recorded sample (the `metrics` dict; `cpu_freq_current` is only
present when `psutil.cpu_freq()` succeeded and returned a truthy
value). -/
structure ResourceSample where
  timestamp : ℚ
  cpu_percent : ℚ
  memory_rss : ℕ
  system_cpu_percent : ℚ
  cpu_freq_current : Option ℚ
deriving DecidableEq, Repr

/-- What the environment (`psutil`) does on one tick of the loop: the
outcome of each of the four reads the loop performs, in program
order. -/
structure TickEnv where
  timestamp : ℚ
  cpuPercentRes : Except MonitorExc ℚ
  memoryInfoRes : Except MonitorExc ℕ
  systemCpuRes : Except MonitorExc ℚ
  cpuFreqRes : Except MonitorExc (Option ℚ)

/-- How one iteration of `_monitor_loop` ends. -/
inductive TickResult
  | appended (s : ResourceSample)
  | breakLoop
  | raised (e : MonitorExc)
deriving DecidableEq, Repr

/-- One iteration of the `while` body of `_monitor_loop`:
`process.cpu_percent` is unguarded; `process.memory_info()` is wrapped
in `try ... except psutil.NoSuchProcess: break`; the `metrics` dict
construction calls `psutil.cpu_percent` unguarded; `psutil.cpu_freq()`
is wrapped in `try ... except Exception: pass`. -/
def monitorTick (env : TickEnv) : TickResult :=
  match env.cpuPercentRes with
  | .error e => .raised e
  | .ok cpu =>
    match env.memoryInfoRes with
    | .error .noSuchProcess => .breakLoop
    | .error .otherFailure => .raised .otherFailure
    | .ok rss =>
      match env.systemCpuRes with
      | .error e => .raised e
      | .ok sys =>
        match env.cpuFreqRes with
        | .error _ => .appended ⟨env.timestamp, cpu, rss, sys, none⟩
        | .ok freq => .appended ⟨env.timestamp, cpu, rss, sys, freq⟩

/-- The sampling loop run over a schedule of tick environments (the
list ends when `stop_event` is set): `break` and normal exhaustion
return the accumulated `data_points`; an uncaught exception propagates
out of `_monitor_loop`. -/
def monitorLoop : List TickEnv → List ResourceSample → Except MonitorExc (List ResourceSample)
  | [], acc => .ok acc
  | env :: rest, acc =>
    match monitorTick env with
    | .appended s => monitorLoop rest (acc ++ [s])
    | .breakLoop => .ok acc
    | .raised e => .error e

/-! ## KEM micro-benchmark phase (`BenchmarkRunner.run_micro_benchmarks`) -/

/-- A per-algorithm result record: operation name ↦ summary. -/
abbrev ResultRecord := List (String × StatSummary)

/-- The timings the clock hands to the micro-benchmark phase for a KEM:
the duration (`perf_counter_ns` difference) of the i-th timed call of
each operation (for encaps/decaps indexed also by the payload size of
the sweep pass). -/
structure KemBehavior where
  keygenNs : ℕ → ℕ
  encapsNs : ℕ → ℕ → ℕ
  decapsNs : ℕ → ℕ → ℕ

/-- The constant `iterations = 1000` — hard-coded in `run_micro_benchmarks`
(runner.py 48): the trial count is fixed, not read from the
configuration. -/
def kemIterations : ℕ := 1000

/-- The keygen latency list collected by the first loop of
`run_micro_benchmarks` (runner.py 57-59). -/
def kemKeygenLats (b : KemBehavior) : List ℤ :=
  (List.range kemIterations).map (fun i => (b.keygenNs i : ℤ))

/-- The encapsulation latency list for one payload size (runner.py
71-86). -/
def kemEncapsLats (b : KemBehavior) (size : ℕ) : List ℤ :=
  (List.range kemIterations).map (fun i => (b.encapsNs size i : ℤ))

/-- The decapsulation latency list for one payload size (runner.py
71-91). -/
def kemDecapsLats (b : KemBehavior) (size : ℕ) : List ℤ :=
  (List.range kemIterations).map (fun i => (b.decapsNs size i : ℤ))

/-- The per-payload-size sweep of the KEM branch (runner.py 68-94):
for each size, the encaps and decaps stats are appended under keys
`encaps_size_<n>` / `decaps_size_<n>`. -/
def kemSizeResults (b : KemBehavior) : List ℕ → Except StatsError ResultRecord
  | [] => .ok []
  | size :: rest => do
    let enc ← calculateStats (kemEncapsLats b size)
    let dec ← calculateStats (kemDecapsLats b size)
    let tail ← kemSizeResults b rest
    .ok (("encaps_size_" ++ toString size, enc)
      :: ("decaps_size_" ++ toString size, dec) :: tail)

/-- Embeds `run_micro_benchmarks` for a KEM (runner.py 46-94): keygen stats
first, then the payload-size sweep; an exception from
`_calculate_stats` propagates. -/
def runMicroBenchmarksKem (b : KemBehavior) (payloadSizes : List ℕ) :
    Except StatsError ResultRecord := do
  let kg ← calculateStats (kemKeygenLats b)
  let rest ← kemSizeResults b payloadSizes
  .ok (("keygen", kg) :: rest)

/-! ## Top-level orchestration (`BenchmarkRunner.run`, runner.py 166-228) -/

/-- The exceptions that can cross the per-algorithm processing inside
the `try` block of `run`: an external cancellation
(`KeyboardInterrupt`, a `BaseException`), and the `Exception`-class
errors of the error-handling taxonomy. -/
inductive RunExc
  | keyboardInterrupt
  | providerLoadFailure
  | operationFailure
  | otherError
deriving DecidableEq, Repr

/-- One configured algorithm as processed inside the `try` block of
`run` (runner.py 190-202): `get_algorithm` + `run_warmup` +
`run_micro_benchmarks` either complete with the algorithm's
`ResultRecord` or raise.  (`run_warmup` itself swallows all exceptions,
so a raise comes from loading or from a timed call.) -/
structure AlgTask where
  name : String
  result : Except RunExc ResultRecord

/-- The two `for` loops over the configured algorithms inside the `try`
block: each completed algorithm's record is inserted into
`full_results['micro_benchmarks']`; the first raise leaves the loop
(and the whole `try` block) with the entries collected so far. -/
def processAlgs : List AlgTask → List (String × ResultRecord) × Option RunExc
  | [] => ([], none)
  | t :: rest =>
    match t.result with
    | .ok r =>
      let acc := processAlgs rest
      ((t.name, r) :: acc.1, acc.2)
    | .error e => ([], some e)

/-- The observable outcome of `BenchmarkRunner.run`. -/
structure RunOutcome where
  microBenchmarks : List (String × ResultRecord)
  monitorStopped : Bool
  endTimeStamped : Bool
  resultsSaved : Bool
  escaped : Option RunExc
deriving DecidableEq, Repr

/-- Embeds `BenchmarkRunner.run` (runner.py 166-228): the `try` block runs the
per-algorithm loops and then the stability test; `except
KeyboardInterrupt` and `except Exception` together swallow every
`RunExc`; the `finally` block always stops the monitor, stamps
`end_time` and writes the (possibly partial) result document. -/
def BenchmarkRunner.run (tasks : List AlgTask) (stability : Except RunExc Unit) :
    RunOutcome :=
  let micro := processAlgs tasks
  let escapedFromTry : Option RunExc :=
    match micro.2 with
    | some e => some e
    | none => match stability with
      | .ok _ => none
      | .error e => some e
  -- both handlers only log, so nothing propagates out of `run`
  let _ := escapedFromTry
  { microBenchmarks := micro.1
    monitorStopped := true
    endTimeStamped := true
    resultsSaved := true
    escaped := none }

/-! ## Concrete inputs used by the closed theorems -/

/-- The nanosecond sample list whose microsecond values are
`[1, 2, ..., 100]` (spec §8's percentile test vector). -/
def c3SampleNs : List ℤ :=
  (List.range 100).map (fun i : ℕ => 1000 * ((i : ℤ) + 1))

/-- A clock behaviour where every timed call takes 1000 ns. -/
def constKemBehavior : KemBehavior :=
  ⟨fun _ => 1000, fun _ _ => 1000, fun _ _ => 1000⟩

/-! ## Helper lemmas -/

theorem foldlMin_le_init (xs : List ℚ) (a : ℚ) : xs.foldl min a ≤ a := by
  induction xs generalizing a with
  | nil => exact le_refl a
  | cons b bs ih => exact le_trans (ih (min a b)) (min_le_left a b)

theorem foldlMin_le_of_mem (xs : List ℚ) (a y : ℚ) (hy : y ∈ xs) :
    xs.foldl min a ≤ y := by
  induction xs generalizing a with
  | nil => cases hy
  | cons b bs ih =>
    rcases List.mem_cons.mp hy with h | h
    · subst h
      exact le_trans (foldlMin_le_init bs (min a y)) (min_le_right a y)
    · exact ih (min a b) h

theorem listMin_le_of_mem {l : List ℚ} {y : ℚ} (hy : y ∈ l) : listMin l ≤ y := by
  cases l with
  | nil => cases hy
  | cons x xs =>
    simp only [listMin]
    rcases List.mem_cons.mp hy with h | h
    · subst h; exact foldlMin_le_init xs y
    · exact foldlMin_le_of_mem xs x y h

theorem init_le_foldlMax (xs : List ℚ) (a : ℚ) : a ≤ xs.foldl max a := by
  induction xs generalizing a with
  | nil => exact le_refl a
  | cons b bs ih => exact le_trans (le_max_left a b) (ih (max a b))

theorem mem_le_foldlMax (xs : List ℚ) (a y : ℚ) (hy : y ∈ xs) :
    y ≤ xs.foldl max a := by
  induction xs generalizing a with
  | nil => cases hy
  | cons b bs ih =>
    rcases List.mem_cons.mp hy with h | h
    · subst h
      exact le_trans (le_max_right a y) (init_le_foldlMax bs (max a y))
    · exact ih (max a b) h

theorem le_listMax_of_mem {l : List ℚ} {y : ℚ} (hy : y ∈ l) : y ≤ listMax l := by
  cases l with
  | nil => cases hy
  | cons x xs =>
    simp only [listMax]
    rcases List.mem_cons.mp hy with h | h
    · subst h; exact init_le_foldlMax xs y
    · exact mem_le_foldlMax xs x y h

theorem insortAux_perm (x : ℚ) (l : List ℚ) :
    List.Perm (insortAux x l) (x :: l) := by
  induction l with
  | nil => exact List.Perm.refl _
  | cons y ys ih =>
    simp only [insortAux]
    split
    · exact List.Perm.refl _
    · exact (List.Perm.cons y ih).trans (List.Perm.swap x y ys)

theorem pySorted_perm (l : List ℚ) : List.Perm (pySorted l) l := by
  induction l with
  | nil => exact List.Perm.refl _
  | cons x xs ih =>
    exact (insortAux_perm x (pySorted xs)).trans (List.Perm.cons x ih)

theorem pySorted_length (l : List ℚ) : (pySorted l).length = l.length :=
  (pySorted_perm l).length_eq

theorem mem_of_mem_pySorted {l : List ℚ} {y : ℚ} (h : y ∈ pySorted l) :
    y ∈ l :=
  (pySorted_perm l).mem_iff.mp h

theorem getD_mem_of_lt (l : List ℚ) (i : ℕ) (h : i < l.length) :
    l.getD i 0 ∈ l := by
  rw [List.getD_eq_getElem l 0 h]
  exact List.getElem_mem h

theorem listMin_le_pyMedian {l : List ℚ} (h : l ≠ []) :
    listMin l ≤ pyMedian l := by
  have hpos : 0 < (pySorted l).length := by
    rw [pySorted_length]; exact List.length_pos.mpr h
  simp only [pyMedian]
  split
  · exact listMin_le_of_mem
      (mem_of_mem_pySorted (getD_mem_of_lt _ _ (Nat.div_lt_self hpos one_lt_two)))
  · have hi1 : (pySorted l).length / 2 - 1 < (pySorted l).length := by omega
    have hi2 : (pySorted l).length / 2 < (pySorted l).length :=
      Nat.div_lt_self hpos one_lt_two
    have hu := listMin_le_of_mem (mem_of_mem_pySorted (getD_mem_of_lt _ _ hi1))
    have hv := listMin_le_of_mem (mem_of_mem_pySorted (getD_mem_of_lt _ _ hi2))
    linarith

theorem pyMedian_le_listMax {l : List ℚ} (h : l ≠ []) :
    pyMedian l ≤ listMax l := by
  have hpos : 0 < (pySorted l).length := by
    rw [pySorted_length]; exact List.length_pos.mpr h
  simp only [pyMedian]
  split
  · exact le_listMax_of_mem
      (mem_of_mem_pySorted (getD_mem_of_lt _ _ (Nat.div_lt_self hpos one_lt_two)))
  · have hi1 : (pySorted l).length / 2 - 1 < (pySorted l).length := by omega
    have hi2 : (pySorted l).length / 2 < (pySorted l).length :=
      Nat.div_lt_self hpos one_lt_two
    have hu := le_listMax_of_mem (mem_of_mem_pySorted (getD_mem_of_lt _ _ hi1))
    have hv := le_listMax_of_mem (mem_of_mem_pySorted (getD_mem_of_lt _ _ hi2))
    linarith

theorem listMin_le_pyMean {l : List ℚ} (h : l ≠ []) :
    listMin l ≤ pyMean l := by
  have hsum := List.card_nsmul_le_sum l (listMin l)
    (fun x hx => listMin_le_of_mem hx)
  rw [nsmul_eq_mul] at hsum
  have hn : (0 : ℚ) < (l.length : ℚ) := by
    exact_mod_cast List.length_pos.mpr h
  rw [pyMean, le_div_iff₀ hn]
  calc listMin l * (l.length : ℚ) = (l.length : ℚ) * listMin l := mul_comm _ _
    _ ≤ l.sum := hsum

theorem pyMean_le_listMax {l : List ℚ} (h : l ≠ []) :
    pyMean l ≤ listMax l := by
  have hsum := List.sum_le_card_nsmul l (listMax l)
    (fun x hx => le_listMax_of_mem hx)
  rw [nsmul_eq_mul] at hsum
  have hn : (0 : ℚ) < (l.length : ℚ) := by
    exact_mod_cast List.length_pos.mpr h
  rw [pyMean, div_le_iff₀ hn]
  calc l.sum ≤ (l.length : ℚ) * listMax l := hsum
    _ = listMax l * (l.length : ℚ) := mul_comm _ _

theorem calculateStats_eq_ok {l : List ℤ} (h : l ≠ []) :
    calculateStats l = .ok (statsOf l) := by
  cases l with
  | nil => exact absurd rfl h
  | cons x xs => rfl

theorem nsToUs_ne_nil {l : List ℤ} (h : l ≠ []) : nsToUs l ≠ [] := by
  cases l with
  | nil => exact absurd rfl h
  | cons x xs => simp [nsToUs]

theorem insortAux_of_le {x : ℚ} {l : List ℚ} (h : ∀ y ∈ l, x ≤ y) :
    insortAux x l = x :: l := by
  cases l with
  | nil => rfl
  | cons y ys =>
    simp only [insortAux]
    rw [if_pos (h y (List.mem_cons_self y ys))]

theorem pySorted_eq_of_sorted {l : List ℚ} (h : l.Pairwise (· ≤ ·)) :
    pySorted l = l := by
  induction l with
  | nil => rfl
  | cons x xs ih =>
    rcases List.pairwise_cons.mp h with ⟨hx, hxs⟩
    simp only [pySorted]
    rw [ih hxs, insortAux_of_le hx]

/-! ## Claim theorems -/

/-- Claim C2: the stats aggregation fails with `EmptySampleSet` when, and
only when, it is given zero samples; for every non-empty sample sequence
it returns a StatSummary. -/
theorem calculateStats_emptySampleSet_iff (l : List ℤ) :
    (calculateStats l = .error .emptySampleSet ↔ l = []) ∧
    (l ≠ [] → ∃ s, calculateStats l = .ok s) := by
  constructor
  · constructor
    · intro h
      cases l with
      | nil => rfl
      | cons x xs => simp [calculateStats] at h
    · intro h; subst h; rfl
  · intro h
    exact ⟨statsOf l, calculateStats_eq_ok h⟩

/-- Witness for C2: the aggregator fails on `[]` and succeeds on the
one-sample list `[1000]`. -/
theorem calculateStats_emptySampleSet_iff_witness :
    (calculateStats [] = .error .emptySampleSet) ∧
    (∃ s, calculateStats [1000] = .ok s) :=
  ⟨(calculateStats_emptySampleSet_iff []).1.mpr rfl,
   (calculateStats_emptySampleSet_iff [1000]).2 (by decide)⟩

/-- Claim C5: for every provider module behaviour and every input triple,
`Signature.verify` never propagates an exception — it always returns a
boolean — and every internal failure during verification (the provider's
`verify` call raising, or its `open` call raising) is caught and mapped
to the return value `False`. -/
theorem verify_never_raises_and_false_on_failure (m : SigModule)
    (pk msg sig : Bytes) :
    (∃ b, Signature.verify m pk msg sig = .ok b) ∧
    (∀ f e, m.verifyFn = some f → f pk msg sig = .error e →
      Signature.verify m pk msg sig = .ok false) ∧
    (∀ op e, m.verifyFn = none → m.openFn = some op → op pk sig = .error e →
      Signature.verify m pk msg sig = .ok false) := by
  refine ⟨?_, ?_, ?_⟩
  · obtain ⟨vf, opf⟩ := m
    cases vf with
    | some f =>
      cases hf : f pk msg sig with
      | ok b => exact ⟨b, by simp [Signature.verify, hf]⟩
      | error e => exact ⟨false, by simp [Signature.verify, hf]⟩
    | none =>
      cases opf with
      | some op =>
        cases ho : op pk sig with
        | ok res => exact ⟨decide (res = msg), by simp [Signature.verify, ho]⟩
        | error e => exact ⟨false, by simp [Signature.verify, ho]⟩
      | none => exact ⟨false, rfl⟩
  · intro f e hvf hf
    simp [Signature.verify, hvf, hf]
  · intro op e hvf hop ho
    simp [Signature.verify, hvf, hop, ho]

/-- Witness for C5: a provider whose `verify` attribute raises on the
concrete triple `[1], [2], [3]` — the adapter returns `False` instead of
propagating. -/
theorem verify_never_raises_and_false_on_failure_witness :
    Signature.verify ⟨some (fun _ _ _ => .error ()), none⟩ [1] [2] [3] =
      .ok false :=
  (verify_never_raises_and_false_on_failure
    ⟨some (fun _ _ _ => .error ()), none⟩ [1] [2] [3]).2.1
    (fun _ _ _ => .error ()) () rfl rfl

/-- Claim C10: when the loaded module exposes neither a `verify` nor an
`open` attribute, `Signature.verify` returns `False` for every input
triple of byte strings, rather than raising. -/
theorem verify_without_provider_attrs_false (pk msg sig : Bytes) :
    Signature.verify ⟨none, none⟩ pk msg sig = .ok false := rfl

/-- Counterexample for C4: with the `pqcrypto` implementation, a name
with no registered binding is not rejected with a distinct
`UnknownAlgorithm` error — `_load_module` falls back to treating the
name itself as a module path (`PQCRYPTO_MAPPING.get(self.name,
self.name)`) and raises the very same `ImportError` class that a
registered-but-unloadable binding raises. -/
theorem loadModule_unknown_name_importError :
    loadModule "NoSuchAlg" "pqcrypto" (fun _ => false) =
      .error (.importError "NoSuchAlg") ∧
    loadModule "ML-KEM-512" "pqcrypto" (fun _ => false) =
      .error (.importError "pqcrypto.kem.ml_kem_512") := by
  exact ⟨rfl, rfl⟩

/-- Amended C4: with the `pqcrypto` implementation, construction fails
with `ImportError` exactly when the resolved module — the mapped binding
for a registered name, the name itself otherwise — cannot be imported
(the same error class in both cases, no distinct `UnknownAlgorithm`);
a distinct `ValueError` is raised only for an unknown implementation
tag. -/
theorem loadModule_error_classes (name : String) (avail : String → Bool) :
    (∀ e, loadModule name "pqcrypto" avail = .error e →
      e = .importError ((PQCRYPTO_MAPPING.lookup name).getD name) ∧
        avail ((PQCRYPTO_MAPPING.lookup name).getD name) = false) ∧
    (avail ((PQCRYPTO_MAPPING.lookup name).getD name) = false →
      loadModule name "pqcrypto" avail =
        .error (.importError ((PQCRYPTO_MAPPING.lookup name).getD name))) ∧
    (∀ impl, impl ≠ "pqcrypto" → impl ≠ "dilithium-py" →
      loadModule name impl avail = .error (.valueError impl)) := by
  refine ⟨?_, ?_, ?_⟩
  · intro e he
    by_cases h : avail ((PQCRYPTO_MAPPING.lookup name).getD name) = true
    · simp [loadModule, h] at he
    · simp [loadModule, h] at he
      exact ⟨he.symm, by simpa using h⟩
  · intro h
    simp [loadModule, h]
  · intro impl h1 h2
    simp [loadModule, h1, h2]

/-- Witness for C4 (amended): an unregistered name and an unknown
implementation tag, both failing as the amended claim says. -/
theorem loadModule_error_classes_witness :
    loadModule "NoSuchAlg2" "pqcrypto" (fun _ => false) =
      .error (.importError "NoSuchAlg2") ∧
    loadModule "ML-KEM-512" "cryptolib" (fun _ => false) =
      .error (.valueError "cryptolib") :=
  ⟨(loadModule_error_classes "NoSuchAlg2" (fun _ => false)).2.1 rfl,
   (loadModule_error_classes "ML-KEM-512" (fun _ => false)).2.2 "cryptolib"
     (by decide) (by decide)⟩

/-- Counterexample for C6: the claim says every non-`NoSuchProcess`
per-tick failure is logged and skipped with the loop continuing; in the
code only the `memory_info` read is guarded, and only against
`NoSuchProcess`, so an `Exception`-class failure of that read (e.g.
`psutil.AccessDenied`) escapes `_monitor_loop` instead of being skipped. -/
theorem monitorLoop_memory_failure_escapes :
    monitorLoop [⟨0, .ok 1, .error .otherFailure, .ok 0, .ok none⟩] [] =
      .error .otherFailure := rfl

/-- Amended C6: per tick, the loop ends early only on a `NoSuchProcess`
failure of the memory read (after a successful process-CPU read); a
failure of the CPU-frequency read is silently skipped — not logged —
with the sample still appended; every other failure (either CPU-percent
read raising, or a non-`NoSuchProcess` failure of the memory read)
escapes the sampling loop. -/
theorem monitorTick_policy (env : TickEnv) :
    (∀ e, env.cpuPercentRes = .error e → monitorTick env = .raised e) ∧
    (∀ c, env.cpuPercentRes = .ok c →
      env.memoryInfoRes = .error .noSuchProcess →
      monitorTick env = .breakLoop) ∧
    (∀ c, env.cpuPercentRes = .ok c →
      env.memoryInfoRes = .error .otherFailure →
      monitorTick env = .raised .otherFailure) ∧
    (∀ c rss e, env.cpuPercentRes = .ok c → env.memoryInfoRes = .ok rss →
      env.systemCpuRes = .error e → monitorTick env = .raised e) ∧
    (∀ c rss sys e, env.cpuPercentRes = .ok c → env.memoryInfoRes = .ok rss →
      env.systemCpuRes = .ok sys → env.cpuFreqRes = .error e →
      monitorTick env = .appended ⟨env.timestamp, c, rss, sys, none⟩) ∧
    (∀ c rss sys freq, env.cpuPercentRes = .ok c → env.memoryInfoRes = .ok rss →
      env.systemCpuRes = .ok sys → env.cpuFreqRes = .ok freq →
      monitorTick env = .appended ⟨env.timestamp, c, rss, sys, freq⟩) := by
  refine ⟨?_, ?_, ?_, ?_, ?_, ?_⟩
  · intro e h1; simp [monitorTick, h1]
  · intro c h1 h2; simp [monitorTick, h1, h2]
  · intro c h1 h2; simp [monitorTick, h1, h2]
  · intro c rss e h1 h2 h3; simp [monitorTick, h1, h2, h3]
  · intro c rss sys e h1 h2 h3 h4; simp [monitorTick, h1, h2, h3, h4]
  · intro c rss sys freq h1 h2 h3 h4; simp [monitorTick, h1, h2, h3, h4]

/-- Witness for C6 (amended): a `NoSuchProcess` failure of the memory
read ends the loop early. -/
theorem monitorTick_policy_witness :
    monitorTick ⟨5, .ok 2, .error .noSuchProcess, .ok 3, .ok none⟩ =
      .breakLoop :=
  (monitorTick_policy ⟨5, .ok 2, .error .noSuchProcess, .ok 3, .ok none⟩).2.1
    2 rfl rfl

/-- Claim C8: if a `KeyboardInterrupt`-class cancellation is raised in a
benchmark phase (per-algorithm processing or the stability phase), the
finalize step still executes: the monitor is stopped, the end time is
stamped, and the partial result document — the records collected before
the interrupt — is persisted; nothing propagates out of `run`. -/
theorem run_finalizes_on_keyboardInterrupt (tasks : List AlgTask)
    (stability : Except RunExc Unit)
    (_h : (processAlgs tasks).2 = some .keyboardInterrupt ∨
      stability = .error .keyboardInterrupt) :
    (BenchmarkRunner.run tasks stability).monitorStopped = true ∧
    (BenchmarkRunner.run tasks stability).endTimeStamped = true ∧
    (BenchmarkRunner.run tasks stability).resultsSaved = true ∧
    (BenchmarkRunner.run tasks stability).microBenchmarks =
      (processAlgs tasks).1 ∧
    (BenchmarkRunner.run tasks stability).escaped = none :=
  ⟨rfl, rfl, rfl, rfl, rfl⟩

/-- Witness for C8: a run whose second algorithm is interrupted still
finalizes with the first algorithm's record persisted. -/
theorem run_finalizes_on_keyboardInterrupt_witness :
    (processAlgs [⟨"ML-KEM-512", .ok []⟩,
        ⟨"ML-DSA-44", .error .keyboardInterrupt⟩]).2 =
      some .keyboardInterrupt ∧
    ((BenchmarkRunner.run [⟨"ML-KEM-512", .ok []⟩,
        ⟨"ML-DSA-44", .error .keyboardInterrupt⟩] (.ok ())).monitorStopped = true ∧
      (BenchmarkRunner.run [⟨"ML-KEM-512", .ok []⟩,
        ⟨"ML-DSA-44", .error .keyboardInterrupt⟩] (.ok ())).endTimeStamped = true ∧
      (BenchmarkRunner.run [⟨"ML-KEM-512", .ok []⟩,
        ⟨"ML-DSA-44", .error .keyboardInterrupt⟩] (.ok ())).resultsSaved = true ∧
      (BenchmarkRunner.run [⟨"ML-KEM-512", .ok []⟩,
        ⟨"ML-DSA-44", .error .keyboardInterrupt⟩] (.ok ())).microBenchmarks =
        (processAlgs [⟨"ML-KEM-512", .ok []⟩,
          ⟨"ML-DSA-44", .error .keyboardInterrupt⟩]).1 ∧
      (BenchmarkRunner.run [⟨"ML-KEM-512", .ok []⟩,
        ⟨"ML-DSA-44", .error .keyboardInterrupt⟩] (.ok ())).escaped = none) :=
  ⟨rfl, run_finalizes_on_keyboardInterrupt _ _ (Or.inl rfl)⟩

/-- Counterexample for C1: the claim says that when one algorithm's
provider fails to load, the remaining configured algorithms still appear
in the final result document.  In the code the whole per-algorithm loop
sits inside one `try` block, so the first failure aborts every later
algorithm: here Kyber768 would load fine, yet it is absent from the
persisted document. -/
theorem run_failure_drops_later_algorithm :
    "Kyber768" ∉
      ((BenchmarkRunner.run
        [⟨"Kyber512", .error .providerLoadFailure⟩, ⟨"Kyber768", .ok []⟩]
        (.ok ())).microBenchmarks.map Prod.fst) := by
  decide

/-- Amended C1: when a configured algorithm fails (provider load failure
or a raised timed call), the error is swallowed at the top level — the
run itself does not abort, and the document is still persisted — but
the failure ends the whole measurement phase: exactly the algorithms
processed before the failing one appear in the result document, and
every later algorithm is skipped. -/
theorem run_failure_aborts_remaining_algorithms
    (pre post : List AlgTask) (t : AlgTask) (e : RunExc)
    (stab : Except RunExc Unit)
    (hpre : ∀ x ∈ pre, ∃ r, x.result = .ok r) (ht : t.result = .error e) :
    (BenchmarkRunner.run (pre ++ t :: post) stab).microBenchmarks.map Prod.fst =
      pre.map AlgTask.name ∧
    (BenchmarkRunner.run (pre ++ t :: post) stab).escaped = none ∧
    (BenchmarkRunner.run (pre ++ t :: post) stab).resultsSaved = true := by
  refine ⟨?_, rfl, rfl⟩
  show (processAlgs (pre ++ t :: post)).1.map Prod.fst = pre.map AlgTask.name
  induction pre with
  | nil => simp [processAlgs, ht]
  | cons x xs ih =>
    obtain ⟨r, hr⟩ := hpre x (List.mem_cons_self x xs)
    have ih2 := ih (fun y hy => hpre y (List.mem_cons_of_mem x hy))
    simpa [processAlgs, hr] using ih2

/-- Witness for C1 (amended): a run where the middle algorithm raises —
only the algorithm before it appears, the run persists its document. -/
theorem run_failure_aborts_remaining_algorithms_witness :
    (BenchmarkRunner.run
      [⟨"Kyber512", .ok []⟩, ⟨"ML-DSA-44", .error .operationFailure⟩,
        ⟨"Falcon-512", .ok []⟩] (.ok ())).microBenchmarks.map Prod.fst =
      ["Kyber512"] ∧
    (BenchmarkRunner.run
      [⟨"Kyber512", .ok []⟩, ⟨"ML-DSA-44", .error .operationFailure⟩,
        ⟨"Falcon-512", .ok []⟩] (.ok ())).escaped = none ∧
    (BenchmarkRunner.run
      [⟨"Kyber512", .ok []⟩, ⟨"ML-DSA-44", .error .operationFailure⟩,
        ⟨"Falcon-512", .ok []⟩] (.ok ())).resultsSaved = true := by
  have h := run_failure_aborts_remaining_algorithms
    [⟨"Kyber512", .ok []⟩] [⟨"Falcon-512", .ok []⟩]
    ⟨"ML-DSA-44", .error .operationFailure⟩ .operationFailure (.ok ())
    (by intro x hx; rw [List.mem_singleton] at hx; subst hx; exact ⟨[], rfl⟩)
    rfl
  simpa using h

/-- Counterexample for C7: the trial count of the micro-benchmark phase
is not configurable — `run_micro_benchmarks` hard-codes
`iterations = 1000` — so with a configured trial count of 10 the keygen
summary is still aggregated over 1000 timing samples, not 10. -/
theorem kem_micro_sample_count_ne_ten :
    (kemKeygenLats constKemBehavior).length ≠ 10 ∧
    (kemKeygenLats constKemBehavior).length = 1000 := by
  constructor
  · simp [kemKeygenLats, kemIterations]
  · simp [kemKeygenLats, kemIterations]

/-- Amended C7: for every clock behaviour, running the KEM
micro-benchmark phase with `payload_sizes = [32]` produces a result
record whose keys are exactly `keygen`, `encaps_size_32`,
`decaps_size_32` in that order, each entry aggregated over exactly 1000
timing samples (the hard-coded trial count). -/
theorem kem_micro_keys_and_sample_count (b : KemBehavior) :
    (∃ kg enc dec, runMicroBenchmarksKem b [32] =
      .ok [("keygen", kg), ("encaps_size_32", enc), ("decaps_size_32", dec)]) ∧
    (kemKeygenLats b).length = 1000 ∧
    (kemEncapsLats b 32).length = 1000 ∧
    (kemDecapsLats b 32).length = 1000 := by
  have hkg : kemKeygenLats b ≠ [] := by
    intro hnil
    have := congrArg List.length hnil
    simp [kemKeygenLats, kemIterations] at this
  have henc : kemEncapsLats b 32 ≠ [] := by
    intro hnil
    have := congrArg List.length hnil
    simp [kemEncapsLats, kemIterations] at this
  have hdec : kemDecapsLats b 32 ≠ [] := by
    intro hnil
    have := congrArg List.length hnil
    simp [kemDecapsLats, kemIterations] at this
  refine ⟨⟨statsOf (kemKeygenLats b), statsOf (kemEncapsLats b 32),
    statsOf (kemDecapsLats b 32), ?_⟩, ?_, ?_, ?_⟩
  · simp only [runMicroBenchmarksKem, kemSizeResults, calculateStats_eq_ok hkg,
      calculateStats_eq_ok henc, calculateStats_eq_ok hdec]
    rfl
  · simp [kemKeygenLats, kemIterations]
  · simp [kemEncapsLats, kemIterations]
  · simp [kemDecapsLats, kemIterations]

theorem nsToUs_c3 :
    nsToUs c3SampleNs = (List.range 100).map (fun i : ℕ => (i : ℚ) + 1) := by
  unfold nsToUs c3SampleNs
  rw [List.map_map]
  apply List.map_congr_left
  intro i _
  simp only [Function.comp_apply]
  push_cast
  ring

theorem c3_sorted :
    ((List.range 100).map (fun i : ℕ => (i : ℚ) + 1)).Pairwise (· ≤ ·) := by
  rw [List.pairwise_map]
  refine (List.pairwise_lt_range 100).imp ?_
  intro a b hab
  have : (a : ℚ) ≤ (b : ℚ) := by exact_mod_cast hab.le
  linarith

theorem c3_getD (k : ℕ) (hk : k < 100) :
    ((List.range 100).map (fun i : ℕ => (i : ℚ) + 1)).getD k 0 = (k : ℚ) + 1 := by
  rw [List.getD_eq_getElem _ 0 (by simpa using hk)]
  simp

theorem p99_c3_value : (statsOf c3SampleNs).p99_us = 9901 / 100 := by
  show npPercentile (nsToUs c3SampleNs) 99 = 9901 / 100
  have hps : pySorted (nsToUs c3SampleNs) =
      (List.range 100).map (fun i : ℕ => (i : ℚ) + 1) := by
    rw [nsToUs_c3]
    exact pySorted_eq_of_sorted c3_sorted
  simp only [npPercentile]
  rw [hps]
  have hlen : ((List.range 100).map (fun i : ℕ => (i : ℚ) + 1)).length = 100 := by
    simp
  rw [hlen]
  have harg : (99 : ℚ) / 100 * ((100 : ℕ) - 1 : ℚ) = 9801 / 100 := by norm_num
  rw [harg]
  have hfl : ⌊(9801 / 100 : ℚ)⌋ = 98 := by
    rw [Int.floor_eq_iff]
    norm_num
  have hcl : ⌈(9801 / 100 : ℚ)⌉ = 99 := by
    rw [Int.ceil_eq_iff]
    norm_num
  rw [hfl, hcl]
  have h98 : ((98 : ℤ)).toNat = 98 := rfl
  have h99 : ((99 : ℤ)).toNat = 99 := rfl
  rw [h98, h99, c3_getD 98 (by norm_num), c3_getD 99 (by norm_num)]
  norm_num

/-- Counterexample for C3: under the linear interpolation the code uses
(`np.percentile` default: index `0.99 × (n−1)`, interpolated), the 99th
percentile of the microsecond samples `[1, 2, ..., 100]` is `99.01`,
not `100` as the claim states. -/
theorem p99_of_one_to_hundred_ne_100 :
    calculateStats c3SampleNs = .ok (statsOf c3SampleNs) ∧
    (statsOf c3SampleNs).p99_us ≠ 100 := by
  refine ⟨calculateStats_eq_ok (by decide), ?_⟩
  rw [p99_c3_value]
  norm_num

/-- Amended C3: the 99th percentile computed by the stats aggregation
over the sample sequence `[1, 2, ..., 100]` (microseconds) equals
`99.01 = 9901/100`, the value of linear interpolation between order
statistics at index `0.99 × (n−1)`. -/
theorem p99_of_one_to_hundred_eq :
    calculateStats c3SampleNs = .ok (statsOf c3SampleNs) ∧
    (statsOf c3SampleNs).p99_us = 9901 / 100 :=
  ⟨calculateStats_eq_ok (by decide), p99_c3_value⟩

/-- Claim C9: for every non-empty duration sequence the summary
satisfies min ≤ median ≤ max, min ≤ mean ≤ max and stddev ≥ 0; for a
single-sample sequence stddev = 0 and mean = median = min = max. -/
theorem stats_summary_invariants (lNs : List ℤ) (h : lNs ≠ []) :
    ∃ s, calculateStats lNs = .ok s ∧
      s.min_us ≤ s.median_us ∧ s.median_us ≤ s.max_us ∧
      s.min_us ≤ s.avg_us ∧ s.avg_us ≤ s.max_us ∧
      0 ≤ Real.sqrt s.std_dev_sq_us ∧
      (∀ x : ℤ, lNs = [x] →
        Real.sqrt s.std_dev_sq_us = 0 ∧
        s.avg_us = s.median_us ∧ s.median_us = s.min_us ∧
        s.min_us = s.max_us) := by
  have hl : nsToUs lNs ≠ [] := nsToUs_ne_nil h
  refine ⟨statsOf lNs, calculateStats_eq_ok h, ?_, ?_, ?_, ?_,
    Real.sqrt_nonneg _, ?_⟩
  · exact listMin_le_pyMedian hl
  · exact pyMedian_le_listMax hl
  · exact listMin_le_pyMean hl
  · exact pyMean_le_listMax hl
  · intro x hx
    subst hx
    have hsd : (statsOf [x]).std_dev_sq_us = 0 := by
      show (if 1 < (nsToUs [x]).length then sampleVariance (nsToUs [x]) else 0) = 0
      simp [nsToUs]
    have ha : (statsOf [x]).avg_us = (x : ℚ) / 1000 := by
      show pyMean (nsToUs [x]) = (x : ℚ) / 1000
      simp [nsToUs, pyMean]
    have hm : (statsOf [x]).median_us = (x : ℚ) / 1000 := by
      show pyMedian (nsToUs [x]) = (x : ℚ) / 1000
      simp [nsToUs, pyMedian, pySorted, insortAux]
    have hmin : (statsOf [x]).min_us = (x : ℚ) / 1000 := by
      show listMin (nsToUs [x]) = (x : ℚ) / 1000
      simp [nsToUs, listMin]
    have hmax : (statsOf [x]).max_us = (x : ℚ) / 1000 := by
      show listMax (nsToUs [x]) = (x : ℚ) / 1000
      simp [nsToUs, listMax]
    refine ⟨?_, ?_, ?_, ?_⟩
    · rw [hsd]
      norm_num
    · rw [ha, hm]
    · rw [hm, hmin]
    · rw [hmin, hmax]

/-- Witness for C9: the invariants instantiated at the concrete
one-sample list `[5000]`. -/
theorem stats_summary_invariants_witness :
    ([5000] : List ℤ) ≠ [] ∧
    (∃ s, calculateStats [5000] = .ok s ∧
      s.min_us ≤ s.median_us ∧ s.median_us ≤ s.max_us ∧
      s.min_us ≤ s.avg_us ∧ s.avg_us ≤ s.max_us ∧
      0 ≤ Real.sqrt s.std_dev_sq_us ∧
      (∀ x : ℤ, ([5000] : List ℤ) = [x] →
        Real.sqrt s.std_dev_sq_us = 0 ∧
        s.avg_us = s.median_us ∧ s.median_us = s.min_us ∧
        s.min_us = s.max_us)) :=
  ⟨by decide, stats_summary_invariants [5000] (by decide)⟩
